import Mathlib

/-
Shallow embedding of the container visibility-grouping system of
src/plugins/common/ui/lib/container.js (Aloha editor UI).

The module keeps one module-level hash `showGroups` mapping canonical
show-condition keys to groups; a group holds one shared `shouldShow`
predicate and the list of member containers.  `Container._constructor`
registers the new container via `addToShowGroup`, and
`Container.showContainersForElements` walks every group once per
selection change, toggling all members of each group together.

Modelling decisions:
- JavaScript values that can appear as a `showOn` setting are the
  inductive `ShowOn`; `jQueryType` mirrors `jQuery.type`.
- `showOn.toString()` raises a TypeError on `undefined` and `null`,
  so `jsToString` (and hence `generateKeyForShowOnValue`) returns
  `Except JSError String`.
- Predicate closures are values of `PredInst`, stamped with the value
  of an allocation counter (`tick`) at creation time, so that two
  closures created by two distinct calls of `coerceShowOnToPredicate`
  are distinct values exactly as two JavaScript closures are distinct
  objects; reference equality of predicates is equality of `PredInst`.
- The heap of container objects is `Nat → Cont` (ids are allocation
  order); groups reference containers by id, mirroring JavaScript
  object references.  The object hash `showGroups` is an association
  list in key insertion order, which is the `for ... in` enumeration
  order for the non-numeric keys produced here.
- `showContainersForElements` additionally reports the contents of the
  caller's (mutated) elements array, the ordered list of `show`/`hide`
  calls made, and the number of predicate evaluations performed; these
  are direct observations of the run, not behaviour changes.
-/

namespace AlohaUi

/-- A DOM element handle.  The only capability the container module
uses is the selector-match query `jQuery(el).is(sel)`. -/
structure Elem where
  tag : String
deriving DecidableEq

/-- Model of the external collaborator query `jQuery(el).is(sel)`:
does the element structurally match the selector string. -/
def jQueryIs (el : Elem) (sel : String) : Bool :=
  el.tag == sel

/-- The jQuery type tags other than the five that the container module
branches on (undefined, null, boolean, string, function). -/
inductive OtherKind where
  | num
  | arr
  | obj
  | date
  | regexp
  | err
deriving DecidableEq

def OtherKind.tag : OtherKind → String
  | .num => "number"
  | .arr => "array"
  | .obj => "object"
  | .date => "date"
  | .regexp => "regexp"
  | .err => "error"

/-- A JavaScript value supplied as a `showOn` setting.  A function
value carries its source text `src` (what `toString()` returns), an
object identity `fid`, and its behaviour `f` on an element-or-null
argument. -/
inductive ShowOn where
  | undef
  | null
  | bool (b : Bool)
  | str (s : String)
  | func (src : String) (fid : Nat) (f : Option Elem → Bool)
  | other (k : OtherKind) (sval : String)

/-- Model of `jQuery.type`. -/
def jQueryType : ShowOn → String
  | .undef => "undefined"
  | .null => "null"
  | .bool _ => "boolean"
  | .str _ => "string"
  | .func _ _ _ => "function"
  | .other k _ => k.tag

inductive JSError where
  | typeError (msg : String)
deriving DecidableEq

/-- Model of `showOn.toString()`.  Property access on `undefined` or
`null` raises a TypeError; every other value stringifies. -/
def jsToString : ShowOn → Except JSError String
  | .undef => .error (.typeError "undefined has no toString")
  | .null => .error (.typeError "null has no toString")
  | .bool b => .ok (if b then "true" else "false")
  | .str s => .ok s
  | .func src _ _ => .ok src
  | .other _ sval => .ok sval

/-- `generateKeyForShowOnValue` (container.js line 34):
`jQuery.type( showOn ) + ':' + showOn.toString()`. -/
def generateKeyForShowOnValue (showOn : ShowOn) : Except JSError String :=
  match jsToString showOn with
  | .error e => .error e
  | .ok s => .ok (jQueryType showOn ++ ":" ++ s)

/-- A predicate closure.  Each constructor is one of the closures that
`coerceShowOnToPredicate` can produce (or the prototype default
`shouldShow`); `tick` is the allocation counter at creation, so equal
`PredInst` values model identical JavaScript function objects. -/
inductive PredInst where
  | ofFunc (fid : Nat) (f : Option Elem → Bool)
  | constBool (b : Bool) (tick : Nat)
  | selector (s : String) (tick : Nat)
  | constTrue (tick : Nat)
  | constFalse (tick : Nat)
  | protoShouldShow

/-- Run a predicate closure on an element (or the null sentinel). -/
def PredInst.eval : PredInst → Option Elem → Bool
  | .ofFunc _ f, x => f x
  | .constBool b _, _ => b
  | .selector s _, x =>
    match x with
    | some el => jQueryIs el s
    | none => false
  | .constTrue _, _ => true
  | .constFalse _, _ => false
  | .protoShouldShow, _ => true

/-- `coerceShowOnToPredicate` (container.js line 68).  The `match`
follows the source's `switch (jQuery.type(showOn))`: a function is
returned unchanged (no fresh closure), a boolean yields a constant
closure over `showOn`, a string yields the selector-test closure
`function(el) { return el ? jQuery(el).is(showOn) : false; }`,
undefined yields a constant-true closure, and the `default` branch
(null and every `OtherKind`) yields a constant-false closure.  `tick`
is the allocation counter stamped into any freshly created closure. -/
def coerceShowOnToPredicate (showOn : ShowOn) (tick : Nat) : PredInst :=
  match showOn with
  | .func _ fid f => .ofFunc fid f
  | .bool b => .constBool b tick
  | .str s => .selector s tick
  | .undef => .constTrue tick
  | .null => .constFalse tick
  | .other _ _ => .constFalse tick

/-- One entry of the `showGroups` hash: the shared `shouldShow`
predicate and the member containers (by id, in insertion order).
A group's `shouldShow` is always one of the function values produced
at group creation, never null/undefined, so the defensive
`if (!shouldShow) continue;` branch of `showContainersForElements`
can never fire and has no counterpart here. -/
structure Group where
  shouldShow : PredInst
  containers : List Nat

/-- The fields of a container object that the visibility engine reads
or writes (`element` and the rendering mechanics are out of scope). -/
structure Cont where
  showOn : ShowOn
  shouldShow : PredInst
  visible : Bool
  activated : Bool

/-- The prototype defaults of the `Container` class (container.js
lines 112-150): `visible: true`, `activated: false`, `showOn: true`,
and a default `shouldShow` that returns true. -/
def protoDefaults : Cont :=
  { showOn := .bool true
    shouldShow := .protoShouldShow
    visible := true
    activated := false }

/-- The whole mutable state of the module: the `showGroups` hash (an
association list in key-insertion order), the heap of container
objects, the allocator for container ids, and the allocation counter
for predicate closures. -/
structure St where
  showGroups : List (String × Group)
  heap : Nat → Cont
  nextId : Nat
  tick : Nat

/-- The state at module load: `var showGroups = {};`, no containers
constructed yet.  A not-yet-allocated heap cell holds the prototype
defaults, exactly as a fresh object does before its constructor
runs. -/
def initSt : St :=
  { showGroups := []
    heap := fun _ => protoDefaults
    nextId := 0
    tick := 0 }

/-- First-match lookup in the `showGroups` hash: `showGroups[ key ]`. -/
def lookupGroup (key : String) : List (String × Group) → Option Group
  | [] => none
  | kg :: rest => if kg.1 = key then some kg.2 else lookupGroup key rest

/-- `group.containers.push( container )` on the entry of `key`. -/
def pushToGroup (key : String) (cid : Nat) :
    List (String × Group) → List (String × Group)
  | [] => []
  | kg :: rest =>
    if kg.1 = key then
      (kg.1, { kg.2 with containers := kg.2.containers ++ [cid] }) :: rest
    else
      kg :: pushToGroup key cid rest

/-- `addToShowGroup` (container.js line 46).  Computes the key (which
can raise for undefined/null `showOn`), then either appends the
container to the existing group of that key, or creates a new group
with a freshly coerced predicate.  Returns the predicate that is
assigned to `container.shouldShow` (line 59) together with the updated
state. -/
def addToShowGroup (showOn : ShowOn) (cid : Nat) (st : St) :
    Except JSError (PredInst × St) :=
  match generateKeyForShowOnValue showOn with
  | .error e => .error e
  | .ok key =>
    match lookupGroup key st.showGroups with
    | some group =>
      .ok (group.shouldShow,
        { st with showGroups := pushToGroup key cid st.showGroups })
    | none =>
      let p := coerceShowOnToPredicate showOn st.tick
      .ok (p,
        { st with
            showGroups := st.showGroups ++ [(key, ⟨p, [cid]⟩)]
            tick := st.tick + 1 })

/-- `new Container( settings )`: the object starts from the prototype
defaults, `_constructor` assigns `this.showOn = settings.showOn` and
calls `addToShowGroup( this )`, which assigns `this.shouldShow`.
`showOnSetting` is the value of `settings.showOn` (`ShowOn.undef` when
the property is absent).  When `addToShowGroup` raises, the exception
propagates out of the constructor and the partially built object is
unreachable, so the error case leaves the state unchanged. -/
def newContainer (showOnSetting : ShowOn) (st : St) :
    Except JSError (Nat × St) :=
  let cid := st.nextId
  match addToShowGroup showOnSetting cid st with
  | .error e => .error e
  | .ok (p, st1) =>
    .ok (cid,
      { st1 with
          heap := fun i =>
            if i = cid then
              { protoDefaults with showOn := showOnSetting, shouldShow := p }
            else st1.heap i
          nextId := cid + 1 })

/-- Write the `visible` flag of the container object `cid`. -/
def setVisible (cid : Nat) (v : Bool) (st : St) : St :=
  { st with
      heap := fun i =>
        if i = cid then { st.heap cid with visible := v } else st.heap i }

/-- `containers[ j ][ action ]()`: `show()` sets `visible = true`,
`hide()` sets `visible = false` (the `element.show()`/`element.hide()`
DOM calls are out of scope).  Inside `toggleContainers` the action is
already known to be one of the two method names. -/
def applyAction (action : String) (cid : Nat) (st : St) : St :=
  if action == "show" then setVisible cid true st
  else if action == "hide" then setVisible cid false st
  else st

/-- The `while ( j ) { containers[ --j ][ action ](); }` loop of
`toggleContainers`, counting down from `j`; also records the calls
made, most recent first in program order. -/
def toggleLoop (cids : List Nat) (action : String) :
    Nat → St → List (Nat × String) × St
  | 0, st => ([], st)
  | j + 1, st =>
    let cid := cids.getD j 0
    let st1 := applyAction action cid st
    let r := toggleLoop cids action j st1
    ((cid, action) :: r.1, r.2)

/-- `toggleContainers` (container.js line 96): guard on the action
name, then run the countdown loop over the whole array. -/
def toggleContainers (cids : List Nat) (action : String) (st : St) :
    List (Nat × String) × St :=
  if action != "show" && action != "hide" then ([], st)
  else toggleLoop cids action cids.length st

/-- The `while ( j ) { ... if ( shouldShow( elements[ --j ] ) ) { show
= true; break; } }` walk of `showContainersForElements`: test elements
from index `j - 1` down to 0, short-circuiting at the first success.
Returns the `show` flag and the number of predicate evaluations
performed.  All accesses are in range (`j` starts at the array
length), so the `getD` default is never read. -/
def walkFrom (p : PredInst) (es : List (Option Elem)) : Nat → Bool × Nat
  | 0 => (false, 0)
  | j + 1 =>
    if p.eval (es.getD j none) then (true, 1)
    else
      let r := walkFrom p es j
      (r.1, r.2 + 1)

/-- The argument of `showContainersForElements`: either an array-like
object with a `push` function and the listed contents, or anything
else (absent, null, or an object without `push`). -/
inductive ElementsArg where
  | notArray
  | array (xs : List (Option Elem))

/-- The effective test sequence: `elements.push( null )` when the
argument is array-like, otherwise the fresh local `[ null ]`. -/
def testSequence : ElementsArg → List (Option Elem)
  | .notArray => [none]
  | .array xs => xs ++ [none]

/-- One full run of the result of `showContainersForElements`:
`elementsAfter` is the contents of the caller's elements array when
the call returns (the `push( null )` mutates it in place), `trace` is
the ordered list of `show`/`hide` calls made on containers, and
`evalCount` the number of `shouldShow` evaluations performed. -/
structure EvalOut where
  elementsAfter : List (Option Elem)
  trace : List (Nat × String)
  evalCount : Nat
  st : St

/-- Intermediate result of the `for ( groupKey in showGroups )` loop. -/
structure LoopOut where
  trace : List (Nat × String)
  evalCount : Nat
  st : St

/-- The `for ( groupKey in showGroups )` loop body: walk the test
sequence with the group's `shouldShow`, then toggle the group's
containers with `show` or `hide`. -/
def groupsLoop : List (String × Group) → List (Option Elem) → St → LoopOut
  | [], _, st => ⟨[], 0, st⟩
  | kg :: rest, elements, st =>
    let w := walkFrom kg.2.shouldShow elements elements.length
    let t := toggleContainers kg.2.containers (if w.1 then "show" else "hide") st
    let r := groupsLoop rest elements t.2
    ⟨t.1 ++ r.trace, w.2 + r.evalCount, r.st⟩

/-- `Container.showContainersForElements` (container.js line 210). -/
def showContainersForElements (arg : ElementsArg) (st : St) : EvalOut :=
  let elements := testSequence arg
  let r := groupsLoop st.showGroups elements st
  ⟨elements, r.trace, r.evalCount, r.st⟩

/-- Modelled from the spec: the sources under src/ contain no
unregister/destroy operation for containers; spec section 4.2
describes `unregister(container)` as "Removes the container from its
group's member list" (dropping an emptied group is explicitly
optional).  This definition removes the container id from every
group's member list (it belongs to at most one). -/
def unregister (cid : Nat) (st : St) : St :=
  { st with
      showGroups := st.showGroups.map fun kg =>
        (kg.1, { kg.2 with containers := kg.2.containers.filter fun c => c ≠ cid }) }

/-- Number of groups that list `cid` among their members. -/
def memGroups (cid : Nat) (gs : List (String × Group)) : Nat :=
  gs.countP fun kg => decide (cid ∈ kg.2.containers)

/-- The states reachable by the module's two entry points: container
construction (registration) and a `showContainersForElements` pass.
A failed construction raises and leaves the state unchanged, so it
needs no constructor here. -/
inductive Reachable : St → Prop
  | base : Reachable initSt
  | construct (showOn : ShowOn) {st : St} {cid : Nat} {st' : St} :
      Reachable st → newContainer showOn st = .ok (cid, st') → Reachable st'
  | evaluate (arg : ElementsArg) {st : St} :
      Reachable st → Reachable (showContainersForElements arg st).st

/-- Registry invariant maintained by registration and evaluation. -/
structure Inv (st : St) : Prop where
  keysNodup : (st.showGroups.map Prod.fst).Nodup
  membersLink : ∀ kg ∈ st.showGroups, ∀ cid ∈ kg.2.containers,
    cid < st.nextId ∧
    (st.heap cid).shouldShow = kg.2.shouldShow ∧
    generateKeyForShowOnValue (st.heap cid).showOn = Except.ok kg.1
  regOnce : ∀ cid, cid < st.nextId → memGroups cid st.showGroups = 1
  unregNone : ∀ cid, st.nextId ≤ cid → memGroups cid st.showGroups = 0

theorem memGroups_nil (cid : Nat) : memGroups cid [] = 0 := rfl

theorem memGroups_cons (cid : Nat) (kg : String × Group) (gs : List (String × Group)) :
    memGroups cid (kg :: gs) =
      memGroups cid gs + (if cid ∈ kg.2.containers then 1 else 0) := by
  simp [memGroups, List.countP_cons]

theorem memGroups_append (cid : Nat) (gs₁ gs₂ : List (String × Group)) :
    memGroups cid (gs₁ ++ gs₂) = memGroups cid gs₁ + memGroups cid gs₂ := by
  simp [memGroups, List.countP_append]

theorem memGroups_pos_iff (cid : Nat) (gs : List (String × Group)) :
    0 < memGroups cid gs ↔ ∃ kg ∈ gs, cid ∈ kg.2.containers := by
  simp [memGroups, List.countP_pos_iff]

theorem lookupGroup_eq_none {key : String} {gs : List (String × Group)} :
    lookupGroup key gs = none ↔ key ∉ gs.map Prod.fst := by
  induction gs with
  | nil => simp [lookupGroup]
  | cons kg rest ih =>
    by_cases h : kg.1 = key
    · simp [lookupGroup, h]
    · rw [lookupGroup, if_neg h, ih]
      simp only [List.map_cons, List.mem_cons, not_or]
      constructor
      · intro hn
        exact ⟨fun he => h he.symm, hn⟩
      · intro hn
        exact hn.2

theorem lookupGroup_decomp {key : String} {gs : List (String × Group)} {g : Group}
    (h : lookupGroup key gs = some g) (cid : Nat) :
    ∃ gs₁ gs₂, gs = gs₁ ++ (key, g) :: gs₂ ∧ (∀ kg ∈ gs₁, kg.1 ≠ key) ∧
      pushToGroup key cid gs =
        gs₁ ++ (key, { g with containers := g.containers ++ [cid] }) :: gs₂ := by
  induction gs with
  | nil => cases h
  | cons kg rest ih =>
    obtain ⟨k1, g1⟩ := kg
    by_cases hk : k1 = key
    · subst hk
      rw [lookupGroup, if_pos rfl] at h
      cases h
      refine ⟨[], rest, by simp, by simp, ?_⟩
      rw [pushToGroup, if_pos rfl]
      simp
    · rw [lookupGroup, if_neg hk] at h
      obtain ⟨gs₁, gs₂, hsplit, hkeys, hpush⟩ := ih h
      refine ⟨(k1, g1) :: gs₁, gs₂, by simp [hsplit], ?_, ?_⟩
      · intro kg' hkg'
        rcases List.mem_cons.mp hkg' with rfl | hmem
        · exact hk
        · exact hkeys kg' hmem
      · rw [pushToGroup, if_neg hk, hpush]
        simp

theorem pushToGroup_keys (key : String) (cid : Nat) (gs : List (String × Group)) :
    (pushToGroup key cid gs).map Prod.fst = gs.map Prod.fst := by
  induction gs with
  | nil => rfl
  | cons kg rest ih =>
    by_cases hk : kg.1 = key
    · simp [pushToGroup, hk]
    · simp [pushToGroup, hk, ih]

theorem entry_eq_of_keys_nodup {gs : List (String × Group)}
    (h : (gs.map Prod.fst).Nodup) {kg1 kg2 : String × Group}
    (h1 : kg1 ∈ gs) (h2 : kg2 ∈ gs) (hk : kg1.1 = kg2.1) : kg1 = kg2 := by
  induction gs with
  | nil => cases h1
  | cons kg rest ih =>
    simp only [List.map_cons, List.nodup_cons] at h
    rcases List.mem_cons.mp h1 with rfl | hm1
    · rcases List.mem_cons.mp h2 with rfl | hm2
      · rfl
      · exact absurd (hk ▸ List.mem_map_of_mem Prod.fst hm2) h.1
    · rcases List.mem_cons.mp h2 with rfl | hm2
      · exact absurd (hk ▸ List.mem_map_of_mem Prod.fst hm1) h.1
      · exact ih h.2 hm1 hm2

/-- `st'` differs from `st` at most in `visible` flags: the group
index, the allocators, and every container's `showOn`, `shouldShow`
and `activated` fields agree. -/
def SameShape (st st' : St) : Prop :=
  st'.showGroups = st.showGroups ∧ st'.nextId = st.nextId ∧ st'.tick = st.tick ∧
    ∀ i, (st'.heap i).showOn = (st.heap i).showOn ∧
      (st'.heap i).shouldShow = (st.heap i).shouldShow ∧
      (st'.heap i).activated = (st.heap i).activated

theorem sameShape_refl (st : St) : SameShape st st :=
  ⟨rfl, rfl, rfl, fun _ => ⟨rfl, rfl, rfl⟩⟩

theorem SameShape.trans {s1 s2 s3 : St}
    (h12 : SameShape s1 s2) (h23 : SameShape s2 s3) : SameShape s1 s3 := by
  obtain ⟨a12, b12, c12, d12⟩ := h12
  obtain ⟨a23, b23, c23, d23⟩ := h23
  refine ⟨a23.trans a12, b23.trans b12, c23.trans c12, fun i => ?_⟩
  obtain ⟨x, y, z⟩ := d12 i
  obtain ⟨x3, y3, z3⟩ := d23 i
  exact ⟨x3.trans x, y3.trans y, z3.trans z⟩

theorem setVisible_sameShape (cid : Nat) (v : Bool) (st : St) :
    SameShape st (setVisible cid v st) := by
  refine ⟨rfl, rfl, rfl, fun i => ?_⟩
  by_cases h : i = cid
  · subst h
    simp [setVisible]
  · simp [setVisible, h]

theorem applyAction_sameShape (action : String) (cid : Nat) (st : St) :
    SameShape st (applyAction action cid st) := by
  unfold applyAction
  by_cases h1 : (action == "show") = true
  · simp only [h1, if_pos rfl]
    exact setVisible_sameShape cid true st
  · by_cases h2 : (action == "hide") = true
    · simp [h1, h2]
      exact setVisible_sameShape cid false st
    · simp [h1, h2]
      exact sameShape_refl st

theorem toggleLoop_sameShape (cids : List Nat) (action : String) :
    ∀ j st, SameShape st (toggleLoop cids action j st).2 := by
  intro j
  induction j with
  | zero => exact fun st => sameShape_refl st
  | succ j ih =>
    intro st
    exact SameShape.trans (applyAction_sameShape action (cids.getD j 0) st)
      (ih (applyAction action (cids.getD j 0) st))

theorem toggleContainers_sameShape (cids : List Nat) (action : String) (st : St) :
    SameShape st (toggleContainers cids action st).2 := by
  unfold toggleContainers
  by_cases h : (action != "show" && action != "hide") = true
  · simp [h]
    exact sameShape_refl st
  · simp only [h]
    simp at h
    exact toggleLoop_sameShape cids action cids.length st

theorem groupsLoop_sameShape (gs : List (String × Group))
    (elements : List (Option Elem)) :
    ∀ st, SameShape st (groupsLoop gs elements st).st := by
  induction gs with
  | nil => exact fun st => sameShape_refl st
  | cons kg rest ih =>
    intro st
    exact SameShape.trans
      (toggleContainers_sameShape kg.2.containers
        (if (walkFrom kg.2.shouldShow elements elements.length).1 then "show" else "hide") st)
      (ih _)

theorem showContainersForElements_sameShape (arg : ElementsArg) (st : St) :
    SameShape st (showContainersForElements arg st).st :=
  groupsLoop_sameShape st.showGroups (testSequence arg) st

theorem applyAction_heap {action : String} {v : Bool}
    (hv : action = "show" ∧ v = true ∨ action = "hide" ∧ v = false)
    (cid : Nat) (st : St) (i : Nat) :
    (applyAction action cid st).heap i =
      if i = cid then { st.heap i with visible := v } else st.heap i := by
  rcases hv with ⟨rfl, rfl⟩ | ⟨rfl, rfl⟩ <;>
    · by_cases h : i = cid
      · subst h
        simp [applyAction, setVisible]
      · simp [applyAction, setVisible, h]

theorem toggleLoop_heap {action : String} {v : Bool}
    (hv : action = "show" ∧ v = true ∨ action = "hide" ∧ v = false)
    (cids : List Nat) :
    ∀ j st c, j ≤ cids.length →
      (toggleLoop cids action j st).2.heap c =
        if c ∈ cids.take j then { st.heap c with visible := v } else st.heap c := by
  intro j
  induction j with
  | zero =>
    intro st c _
    simp [toggleLoop]
  | succ j ih =>
    intro st c hj
    have hjlt : j < cids.length := Nat.lt_of_succ_le hj
    have hget : cids.getD j 0 = cids[j] := List.getD_eq_getElem cids 0 hjlt
    have htake : cids.take (j + 1) = cids.take j ++ [cids[j]] := by
      rw [List.take_succ, List.getElem?_eq_getElem hjlt]
      rfl
    have hmem_iff : c ∈ cids.take (j + 1) ↔ c ∈ cids.take j ∨ c = cids[j] := by
      rw [htake, List.mem_append, List.mem_singleton]
    show (toggleLoop cids action j (applyAction action (cids.getD j 0) st)).2.heap c = _
    rw [ih (applyAction action (cids.getD j 0) st) c (Nat.le_of_succ_le hj)]
    rw [applyAction_heap hv (cids.getD j 0) st c, hget]
    by_cases hct : c ∈ cids.take j
    · rw [if_pos hct, if_pos (hmem_iff.mpr (Or.inl hct))]
      by_cases hcj : c = cids[j]
      · rw [if_pos hcj]
      · rw [if_neg hcj]
    · rw [if_neg hct]
      by_cases hcj : c = cids[j]
      · rw [if_pos hcj, if_pos (hmem_iff.mpr (Or.inr hcj))]
      · rw [if_neg hcj, if_neg (fun h => (hmem_iff.mp h).elim hct hcj)]

theorem toggleContainers_heap {action : String} {v : Bool}
    (hv : action = "show" ∧ v = true ∨ action = "hide" ∧ v = false)
    (cids : List Nat) (st : St) (c : Nat) :
    (toggleContainers cids action st).2.heap c =
      if c ∈ cids then { st.heap c with visible := v } else st.heap c := by
  rcases hv with ⟨rfl, rfl⟩ | ⟨rfl, rfl⟩
  · have hred : toggleContainers cids "show" st = toggleLoop cids "show" cids.length st := rfl
    rw [hred, toggleLoop_heap (Or.inl ⟨rfl, rfl⟩) cids cids.length st c (Nat.le_refl _),
      cids.take_length]
  · have hred : toggleContainers cids "hide" st = toggleLoop cids "hide" cids.length st := rfl
    rw [hred, toggleLoop_heap (Or.inr ⟨rfl, rfl⟩) cids cids.length st c (Nat.le_refl _),
      cids.take_length]

theorem toggleLoop_trace (cids : List Nat) (action : String) :
    ∀ j st, j ≤ cids.length →
      (toggleLoop cids action j st).1 =
        (cids.take j).reverse.map fun c => (c, action) := by
  intro j
  induction j with
  | zero =>
    intro st _
    simp [toggleLoop]
  | succ j ih =>
    intro st hj
    have hjlt : j < cids.length := Nat.lt_of_succ_le hj
    have hget : cids.getD j 0 = cids[j] := List.getD_eq_getElem cids 0 hjlt
    have htake : cids.take (j + 1) = cids.take j ++ [cids[j]] := by
      rw [List.take_succ, List.getElem?_eq_getElem hjlt]
      rfl
    show (cids.getD j 0, action) ::
        (toggleLoop cids action j (applyAction action (cids.getD j 0) st)).1 = _
    rw [ih _ (Nat.le_of_succ_le hj), hget, htake, List.reverse_append,
      List.reverse_singleton, List.singleton_append, List.map_cons]

theorem toggleContainers_trace {action : String}
    (hv : action = "show" ∨ action = "hide") (cids : List Nat) (st : St) :
    (toggleContainers cids action st).1 =
      cids.reverse.map fun c => (c, action) := by
  rcases hv with rfl | rfl
  · have hred : toggleContainers cids "show" st = toggleLoop cids "show" cids.length st := rfl
    rw [hred, toggleLoop_trace cids "show" cids.length st (Nat.le_refl _), cids.take_length]
  · have hred : toggleContainers cids "hide" st = toggleLoop cids "hide" cids.length st := rfl
    rw [hred, toggleLoop_trace cids "hide" cids.length st (Nat.le_refl _), cids.take_length]

theorem walkFrom_fst_eq_any (p : PredInst) (es : List (Option Elem)) :
    ∀ j, j ≤ es.length →
      (walkFrom p es j).1 = (es.take j).any fun e => p.eval e := by
  intro j
  induction j with
  | zero =>
    intro _
    simp [walkFrom]
  | succ j ih =>
    intro hj
    have hjlt : j < es.length := Nat.lt_of_succ_le hj
    have hget : es.getD j none = es[j] := List.getD_eq_getElem es none hjlt
    have htake : es.take (j + 1) = es.take j ++ [es[j]] := by
      rw [List.take_succ, List.getElem?_eq_getElem hjlt]
      rfl
    rw [walkFrom, hget, htake]
    by_cases hpe : p.eval es[j] = true
    · rw [if_pos hpe, List.any_append]
      simp [hpe]
    · have hfalse : p.eval es[j] = false := by simpa using hpe
      rw [if_neg hpe, List.any_append]
      show (walkFrom p es j).1 = _
      rw [ih (Nat.le_of_succ_le hj)]
      simp [hfalse]

theorem walkFrom_any (p : PredInst) (es : List (Option Elem)) :
    (walkFrom p es es.length).1 = es.any fun e => p.eval e := by
  rw [walkFrom_fst_eq_any p es es.length (Nat.le_refl _), es.take_length]

theorem walkFrom_count_le (p : PredInst) (es : List (Option Elem)) :
    ∀ j, (walkFrom p es j).2 ≤ j := by
  intro j
  induction j with
  | zero => simp [walkFrom]
  | succ j ih =>
    rw [walkFrom]
    by_cases hpe : p.eval (es.getD j none) = true
    · rw [if_pos hpe]
      exact Nat.succ_le_succ (Nat.zero_le j)
    · rw [if_neg hpe]
      exact Nat.succ_le_succ ih

theorem toggleContainers_decision_heap (w : Bool) (cids : List Nat) (st : St)
    (c : Nat) :
    (toggleContainers cids (if w then "show" else "hide") st).2.heap c =
      if c ∈ cids then { st.heap c with visible := w } else st.heap c := by
  cases w
  · exact toggleContainers_heap (Or.inr ⟨rfl, rfl⟩) cids st c
  · exact toggleContainers_heap (Or.inl ⟨rfl, rfl⟩) cids st c

theorem groupsLoop_heap_of_not_mem (elements : List (Option Elem)) {c : Nat} :
    ∀ gs : List (String × Group), memGroups c gs = 0 →
      ∀ st, (groupsLoop gs elements st).st.heap c = st.heap c := by
  intro gs
  induction gs with
  | nil =>
    intro _ st
    rfl
  | cons kg rest ih =>
    intro hmem st
    rw [memGroups_cons] at hmem
    have hrest : memGroups c rest = 0 := by omega
    have hhead : c ∉ kg.2.containers := by
      by_cases h : c ∈ kg.2.containers
      · rw [if_pos h] at hmem
        omega
      · exact h
    show (groupsLoop rest elements _).st.heap c = st.heap c
    rw [ih hrest]
    rw [toggleContainers_decision_heap _ kg.2.containers st c, if_neg hhead]

theorem groupsLoop_heap_of_mem (elements : List (Option Elem)) {c : Nat} :
    ∀ gs : List (String × Group), memGroups c gs = 1 →
      ∀ st, ∃ kg ∈ gs, c ∈ kg.2.containers ∧
        (groupsLoop gs elements st).st.heap c =
          { st.heap c with
              visible := (walkFrom kg.2.shouldShow elements elements.length).1 } := by
  intro gs
  induction gs with
  | nil =>
    intro hmem
    simp [memGroups] at hmem
  | cons kg rest ih =>
    intro hmem st
    rw [memGroups_cons] at hmem
    by_cases hhead : c ∈ kg.2.containers
    · rw [if_pos hhead] at hmem
      have hrest : memGroups c rest = 0 := by omega
      refine ⟨kg, List.mem_cons_self kg rest, hhead, ?_⟩
      show (groupsLoop rest elements _).st.heap c = _
      rw [groupsLoop_heap_of_not_mem elements rest hrest]
      rw [toggleContainers_decision_heap _ kg.2.containers st c, if_pos hhead]
    · rw [if_neg hhead] at hmem
      have hrest : memGroups c rest = 1 := by omega
      obtain ⟨kg', hkg', hc', hheap⟩ :=
        ih hrest (toggleContainers kg.2.containers
          (if (walkFrom kg.2.shouldShow elements elements.length).1 then "show" else "hide")
          st).2
      refine ⟨kg', List.mem_cons_of_mem kg hkg', hc', ?_⟩
      show (groupsLoop rest elements _).st.heap c = _
      rw [hheap, toggleContainers_decision_heap _ kg.2.containers st c, if_neg hhead]

theorem groupsLoop_count_le (elements : List (Option Elem)) :
    ∀ gs : List (String × Group), ∀ st,
      (groupsLoop gs elements st).evalCount ≤ gs.length * elements.length := by
  intro gs
  induction gs with
  | nil =>
    intro st
    exact Nat.zero_le _
  | cons kg rest ih =>
    intro st
    show (walkFrom kg.2.shouldShow elements elements.length).2 +
        (groupsLoop rest elements _).evalCount ≤ _
    have h1 := walkFrom_count_le kg.2.shouldShow elements elements.length
    have h2 := ih (toggleContainers kg.2.containers
      (if (walkFrom kg.2.shouldShow elements elements.length).1 then "show" else "hide") st).2
    calc (walkFrom kg.2.shouldShow elements elements.length).2 +
          (groupsLoop rest elements _).evalCount
        ≤ elements.length + rest.length * elements.length := Nat.add_le_add h1 h2
      _ = (rest.length + 1) * elements.length := by ring
      _ = (kg :: rest).length * elements.length := by simp

theorem groupsLoop_trace (elements : List (Option Elem)) :
    ∀ gs : List (String × Group), ∀ st,
      (groupsLoop gs elements st).trace =
        (gs.map fun kg =>
          kg.2.containers.reverse.map fun c =>
            (c, if (walkFrom kg.2.shouldShow elements elements.length).1
                then "show" else "hide")).flatten := by
  intro gs
  induction gs with
  | nil =>
    intro st
    rfl
  | cons kg rest ih =>
    intro st
    show (toggleContainers kg.2.containers
        (if (walkFrom kg.2.shouldShow elements elements.length).1 then "show" else "hide")
        st).1 ++ (groupsLoop rest elements _).trace = _
    rw [ih, List.map_cons, List.flatten_cons,
      toggleContainers_trace (by cases (walkFrom kg.2.shouldShow elements elements.length).1 <;> simp)
        kg.2.containers st]

theorem inv_initSt : Inv initSt := by
  refine ⟨List.nodup_nil, ?_, ?_, ?_⟩
  · intro kg hkg
    cases hkg
  · intro cid hcid
    cases hcid
  · intro cid _
    rfl

theorem inv_sameShape {st st' : St} (h : SameShape st st') (hInv : Inv st) :
    Inv st' := by
  obtain ⟨hg, hn, _ht, hh⟩ := h
  refine ⟨?_, ?_, ?_, ?_⟩
  · rw [hg]
    exact hInv.keysNodup
  · intro kg hkg cid hcid
    rw [hg] at hkg
    obtain ⟨h1, h2, h3⟩ := hInv.membersLink kg hkg cid hcid
    obtain ⟨hshowOn, hshould, _⟩ := hh cid
    rw [hn, hshould, hshowOn]
    exact ⟨h1, h2, h3⟩
  · intro cid hcid
    rw [hg]
    rw [hn] at hcid
    exact hInv.regOnce cid hcid
  · intro cid hcid
    rw [hg]
    rw [hn] at hcid
    exact hInv.unregNone cid hcid

theorem newContainer_ok {showOn : ShowOn} {st : St} {cid : Nat} {st' : St}
    (h : newContainer showOn st = Except.ok (cid, st')) :
    cid = st.nextId ∧ ∃ p st1,
      addToShowGroup showOn st.nextId st = Except.ok (p, st1) ∧
      st' = { st1 with
          heap := fun i =>
            if i = st.nextId then { protoDefaults with showOn := showOn, shouldShow := p }
            else st1.heap i
          nextId := st.nextId + 1 } := by
  unfold newContainer at h
  cases hA : addToShowGroup showOn st.nextId st with
  | error e =>
    simp only [hA] at h
    exact Except.noConfusion h
  | ok r =>
    obtain ⟨p, st1⟩ := r
    simp only [hA, Except.ok.injEq, Prod.mk.injEq] at h
    exact ⟨h.1.symm, p, st1, rfl, h.2.symm⟩

theorem addToShowGroup_ok {showOn : ShowOn} {cid : Nat} {st : St}
    {p : PredInst} {st1 : St}
    (h : addToShowGroup showOn cid st = Except.ok (p, st1)) :
    ∃ key, generateKeyForShowOnValue showOn = Except.ok key ∧
      ((∃ g, lookupGroup key st.showGroups = some g ∧ p = g.shouldShow ∧
          st1 = { st with showGroups := pushToGroup key cid st.showGroups }) ∨
        (lookupGroup key st.showGroups = none ∧
          p = coerceShowOnToPredicate showOn st.tick ∧
          st1 = { st with
              showGroups := st.showGroups ++ [(key, ⟨p, [cid]⟩)]
              tick := st.tick + 1 })) := by
  unfold addToShowGroup at h
  cases hK : generateKeyForShowOnValue showOn with
  | error e =>
    simp only [hK] at h
    exact Except.noConfusion h
  | ok key =>
    simp only [hK] at h
    cases hL : lookupGroup key st.showGroups with
    | some g =>
      simp only [hL, Except.ok.injEq, Prod.mk.injEq] at h
      exact ⟨key, rfl, Or.inl ⟨g, hL, h.1.symm, h.2.symm⟩⟩
    | none =>
      simp only [hL, Except.ok.injEq, Prod.mk.injEq] at h
      refine ⟨key, rfl, Or.inr ⟨hL, h.1.symm, ?_⟩⟩
      rw [← h.2, ← h.1]

theorem inv_construct {showOn : ShowOn} {st : St} {cid : Nat} {st' : St}
    (hInv : Inv st) (h : newContainer showOn st = Except.ok (cid, st')) :
    Inv st' := by
  obtain ⟨hcid, p, st1, hA, hst'⟩ := newContainer_ok h
  obtain ⟨key, hK, hcases⟩ := addToShowGroup_ok hA
  rcases hcases with ⟨g, hL, hp, hst1⟩ | ⟨hL, hp, hst1⟩
  · -- Existing group: the container is appended to the group of `key`
    -- and receives the group's predicate instance.
    subst hp
    subst hst1
    subst hst'
    obtain ⟨gs₁, gs₂, hsplit, _hkeys1, hpush⟩ := lookupGroup_decomp hL st.nextId
    constructor
    · show (pushToGroup key st.nextId st.showGroups).map Prod.fst |>.Nodup
      rw [pushToGroup_keys]
      exact hInv.keysNodup
    · intro kg' hkg' cid' hcid'
      show cid' < st.nextId + 1 ∧
        (if cid' = st.nextId then { protoDefaults with showOn := showOn, shouldShow := g.shouldShow } else st.heap cid').shouldShow = kg'.2.shouldShow ∧
        generateKeyForShowOnValue
          (if cid' = st.nextId then { protoDefaults with showOn := showOn, shouldShow := g.shouldShow } else st.heap cid').showOn = Except.ok kg'.1
      replace hkg' : kg' ∈ pushToGroup key st.nextId st.showGroups := hkg'
      rw [hpush] at hkg'
      rcases List.mem_append.mp hkg' with hin1 | hin2
      · have hold : kg' ∈ st.showGroups := by
          rw [hsplit]
          exact List.mem_append_left _ hin1
        obtain ⟨h1, h2, h3⟩ := hInv.membersLink kg' hold cid' hcid'
        rw [if_neg (Nat.ne_of_lt h1)]
        exact ⟨Nat.lt_succ_of_lt h1, h2, h3⟩
      · rcases List.mem_cons.mp hin2 with heq | hin2'
        · subst heq
          rcases List.mem_append.mp hcid' with hmemg | hmemnew
          · have hold : (key, g) ∈ st.showGroups := by
              rw [hsplit]
              exact List.mem_append_right _ (List.mem_cons_self _ _)
            obtain ⟨h1, h2, h3⟩ := hInv.membersLink (key, g) hold cid' hmemg
            rw [if_neg (Nat.ne_of_lt h1)]
            exact ⟨Nat.lt_succ_of_lt h1, h2, h3⟩
          · have hc : cid' = st.nextId := List.mem_singleton.mp hmemnew
            subst hc
            rw [if_pos rfl]
            exact ⟨Nat.lt_succ_self _, rfl, hK⟩
        · have hold : kg' ∈ st.showGroups := by
            rw [hsplit]
            exact List.mem_append_right _ (List.mem_cons_of_mem _ hin2')
          obtain ⟨h1, h2, h3⟩ := hInv.membersLink kg' hold cid' hcid'
          rw [if_neg (Nat.ne_of_lt h1)]
          exact ⟨Nat.lt_succ_of_lt h1, h2, h3⟩
    · intro cid' hcid'
      replace hcid' : cid' < st.nextId + 1 := hcid'
      show memGroups cid' (pushToGroup key st.nextId st.showGroups) = 1
      rw [hpush, memGroups_append, memGroups_cons]
      show memGroups cid' gs₁ + (memGroups cid' gs₂ +
        if cid' ∈ g.containers ++ [st.nextId] then 1 else 0) = 1
      have hold : memGroups cid' st.showGroups =
          memGroups cid' gs₁ + (memGroups cid' gs₂ +
            if cid' ∈ g.containers then 1 else 0) := by
        rw [hsplit, memGroups_append, memGroups_cons]
      by_cases hlt : cid' < st.nextId
      · have h1 : memGroups cid' st.showGroups = 1 := hInv.regOnce cid' hlt
        have hne : cid' ≠ st.nextId := Nat.ne_of_lt hlt
        have hmem : (cid' ∈ g.containers ++ [st.nextId]) ↔ cid' ∈ g.containers := by
          rw [List.mem_append, List.mem_singleton]
          exact ⟨fun hc => hc.elim id (fun hx => absurd hx hne), Or.inl⟩
        rw [hold] at h1
        by_cases hing : cid' ∈ g.containers
        · rw [if_pos (hmem.mpr hing)]
          rw [if_pos hing] at h1
          omega
        · rw [if_neg (fun hx => hing (hmem.mp hx))]
          rw [if_neg hing] at h1
          omega
      · have hc : cid' = st.nextId := by omega
        have h0 : memGroups cid' st.showGroups = 0 := by
          rw [hc]
          exact hInv.unregNone st.nextId (Nat.le_refl _)
        rw [hold] at h0
        have hmem : cid' ∈ g.containers ++ [st.nextId] := by
          rw [hc]
          exact List.mem_append_right _ (List.mem_singleton.mpr rfl)
        rw [if_pos hmem]
        by_cases hing : cid' ∈ g.containers
        · rw [if_pos hing] at h0
          omega
        · rw [if_neg hing] at h0
          omega
    · intro cid' hcid'
      replace hcid' : st.nextId + 1 ≤ cid' := hcid'
      show memGroups cid' (pushToGroup key st.nextId st.showGroups) = 0
      have hge : st.nextId ≤ cid' := Nat.le_of_succ_le hcid'
      have hne : cid' ≠ st.nextId := by omega
      have h0 : memGroups cid' st.showGroups = 0 := hInv.unregNone cid' hge
      rw [hpush, memGroups_append, memGroups_cons]
      show memGroups cid' gs₁ + (memGroups cid' gs₂ +
        if cid' ∈ g.containers ++ [st.nextId] then 1 else 0) = 0
      rw [hsplit, memGroups_append, memGroups_cons] at h0
      have hmem : (cid' ∈ g.containers ++ [st.nextId]) ↔ cid' ∈ g.containers := by
        rw [List.mem_append, List.mem_singleton]
        exact ⟨fun hc => hc.elim id (fun hx => absurd hx hne), Or.inl⟩
      by_cases hing : cid' ∈ g.containers
      · rw [if_pos hing] at h0
        omega
      · rw [if_neg hing] at h0
        rw [if_neg (fun hx => hing (hmem.mp hx))]
        omega
  · -- New group appended at the end of the hash with a freshly
    -- coerced predicate.
    subst hp
    subst hst1
    subst hst'
    have hnotin : key ∉ st.showGroups.map Prod.fst := lookupGroup_eq_none.mp hL
    constructor
    · show (st.showGroups ++
        [(key, Group.mk (coerceShowOnToPredicate showOn st.tick) [st.nextId])]).map Prod.fst
          |>.Nodup
      rw [List.map_append, List.nodup_append]
      refine ⟨hInv.keysNodup, List.nodup_singleton _, ?_⟩
      intro a ha hb
      rw [List.map_singleton, List.mem_singleton] at hb
      subst hb
      exact hnotin ha
    · intro kg' hkg' cid' hcid'
      show cid' < st.nextId + 1 ∧
        (if cid' = st.nextId then { protoDefaults with showOn := showOn, shouldShow := coerceShowOnToPredicate showOn st.tick } else st.heap cid').shouldShow = kg'.2.shouldShow ∧
        generateKeyForShowOnValue
          (if cid' = st.nextId then { protoDefaults with showOn := showOn, shouldShow := coerceShowOnToPredicate showOn st.tick } else st.heap cid').showOn = Except.ok kg'.1
      replace hkg' : kg' ∈ st.showGroups ++
        [(key, Group.mk (coerceShowOnToPredicate showOn st.tick) [st.nextId])] := hkg'
      rcases List.mem_append.mp hkg' with hin1 | hin2
      · obtain ⟨h1, h2, h3⟩ := hInv.membersLink kg' hin1 cid' hcid'
        rw [if_neg (Nat.ne_of_lt h1)]
        exact ⟨Nat.lt_succ_of_lt h1, h2, h3⟩
      · have heq : kg' = (key, Group.mk (coerceShowOnToPredicate showOn st.tick) [st.nextId]) :=
          List.mem_singleton.mp hin2
        subst heq
        have hc : cid' = st.nextId := List.mem_singleton.mp hcid'
        subst hc
        rw [if_pos rfl]
        exact ⟨Nat.lt_succ_self _, rfl, hK⟩
    · intro cid' hcid'
      replace hcid' : cid' < st.nextId + 1 := hcid'
      show memGroups cid' (st.showGroups ++
        [(key, Group.mk (coerceShowOnToPredicate showOn st.tick) [st.nextId])]) = 1
      rw [memGroups_append, memGroups_cons, memGroups_nil]
      show memGroups cid' st.showGroups + (0 + if cid' ∈ [st.nextId] then 1 else 0) = 1
      by_cases hlt : cid' < st.nextId
      · have h1 : memGroups cid' st.showGroups = 1 := hInv.regOnce cid' hlt
        have hne : cid' ≠ st.nextId := Nat.ne_of_lt hlt
        rw [if_neg (fun hx => hne (List.mem_singleton.mp hx))]
        omega
      · have hc : cid' = st.nextId := by omega
        have h0 : memGroups cid' st.showGroups = 0 := by
          rw [hc]
          exact hInv.unregNone st.nextId (Nat.le_refl _)
        have hmem : cid' ∈ [st.nextId] := by
          rw [hc]
          exact List.mem_singleton.mpr rfl
        rw [if_pos hmem]
        omega
    · intro cid' hcid'
      replace hcid' : st.nextId + 1 ≤ cid' := hcid'
      show memGroups cid' (st.showGroups ++
        [(key, Group.mk (coerceShowOnToPredicate showOn st.tick) [st.nextId])]) = 0
      have hge : st.nextId ≤ cid' := Nat.le_of_succ_le hcid'
      have hne : cid' ≠ st.nextId := by omega
      have h0 : memGroups cid' st.showGroups = 0 := hInv.unregNone cid' hge
      rw [memGroups_append, memGroups_cons, memGroups_nil]
      show memGroups cid' st.showGroups + (0 + if cid' ∈ [st.nextId] then 1 else 0) = 0
      rw [if_neg (fun hx => hne (List.mem_singleton.mp hx))]
      omega

theorem reachable_inv {st : St} (h : Reachable st) : Inv st := by
  induction h with
  | base => exact inv_initSt
  | construct showOn hst heq ih => exact inv_construct ih heq
  | evaluate arg hst ih =>
    exact inv_sameShape (showContainersForElements_sameShape _ _) ih

/-- Example state: one container constructed with `showOn: true`. -/
def exSt1 : St :=
  match newContainer (ShowOn.bool true) initSt with
  | .ok r => r.2
  | .error _ => initSt

theorem newContainer_exSt1 :
    newContainer (ShowOn.bool true) initSt = Except.ok (0, exSt1) := rfl

theorem reach_exSt1 : Reachable exSt1 :=
  Reachable.construct (ShowOn.bool true) Reachable.base newContainer_exSt1

/-- Example state: a second container constructed with `showOn: true`;
both land in the group of key "boolean:true". -/
def exSt2 : St :=
  match newContainer (ShowOn.bool true) exSt1 with
  | .ok r => r.2
  | .error _ => exSt1

theorem newContainer_exSt2 :
    newContainer (ShowOn.bool true) exSt1 = Except.ok (1, exSt2) := rfl

theorem reach_exSt2 : Reachable exSt2 :=
  Reachable.construct (ShowOn.bool true) reach_exSt1 newContainer_exSt2

/-- Example state: one container constructed with `showOn: false`. -/
def exStF : St :=
  match newContainer (ShowOn.bool false) initSt with
  | .ok r => r.2
  | .error _ => initSt

/-- C1: after every `Container.showContainersForElements(elements)`
call on a reachable registry, each registered container belongs to a
group of the registry, and its `visible` flag equals exactly whether
the group's `shouldShow` predicate returns true for at least one entry
of the test sequence — the given elements plus the appended null
sentinel (`testSequence`), which is just the sentinel when the
argument is an empty array or not an array at all. -/
theorem evaluate_sets_visible_iff_group_predicate_holds
    (st : St) (h : Reachable st) (arg : ElementsArg) (cid : Nat)
    (hcid : cid < st.nextId) :
    ∃ kg ∈ st.showGroups, cid ∈ kg.2.containers ∧
      kg.2.shouldShow = (st.heap cid).shouldShow ∧
      ((showContainersForElements arg st).st.heap cid).visible =
        (testSequence arg).any fun e => kg.2.shouldShow.eval e := by
  have hInv := reachable_inv h
  have h1 : memGroups cid st.showGroups = 1 := hInv.regOnce cid hcid
  obtain ⟨kg, hkg, hc, hheap⟩ :=
    groupsLoop_heap_of_mem (testSequence arg) st.showGroups h1 st
  refine ⟨kg, hkg, hc, ?_, ?_⟩
  · exact ((hInv.membersLink kg hkg cid hc).2.1).symm
  · show ((groupsLoop st.showGroups (testSequence arg) st).st.heap cid).visible = _
    rw [hheap]
    show (walkFrom kg.2.shouldShow (testSequence arg) (testSequence arg).length).1 = _
    exact walkFrom_any kg.2.shouldShow (testSequence arg)

/-- C1 witness: in the registry holding the single container 0
(showOn: true), evaluating an empty array leaves it visible. -/
theorem evaluate_sets_visible_iff_group_predicate_holds_witness :
    Reachable exSt1 ∧ 0 < exSt1.nextId ∧
      ∃ kg ∈ exSt1.showGroups, 0 ∈ kg.2.containers ∧
        kg.2.shouldShow = (exSt1.heap 0).shouldShow ∧
        ((showContainersForElements (ElementsArg.array []) exSt1).st.heap 0).visible =
          (testSequence (ElementsArg.array [])).any fun e => kg.2.shouldShow.eval e :=
  ⟨reach_exSt1, by decide,
    evaluate_sets_visible_iff_group_predicate_holds exSt1 reach_exSt1
      (ElementsArg.array []) 0 (by decide)⟩

/-- C2: on every reachable registry, two registered containers whose
`showOn` values canonicalize to the same key hold the identical
predicate instance; every group member's key is its group's key and
its `shouldShow` is the group's single predicate instance; and no
container id is a member of more than one group. -/
theorem shared_predicate_instance_invariant (st : St) (h : Reachable st) :
    (∀ c1 c2 k, c1 < st.nextId → c2 < st.nextId →
      generateKeyForShowOnValue (st.heap c1).showOn = Except.ok k →
      generateKeyForShowOnValue (st.heap c2).showOn = Except.ok k →
      (st.heap c1).shouldShow = (st.heap c2).shouldShow) ∧
    (∀ kg ∈ st.showGroups, ∀ cid ∈ kg.2.containers,
      generateKeyForShowOnValue (st.heap cid).showOn = Except.ok kg.1 ∧
      (st.heap cid).shouldShow = kg.2.shouldShow) ∧
    (∀ cid : Nat, memGroups cid st.showGroups ≤ 1) := by
  have hInv := reachable_inv h
  refine ⟨?_, ?_, ?_⟩
  · intro c1 c2 k h1 h2 hk1 hk2
    have m1 : memGroups c1 st.showGroups = 1 := hInv.regOnce c1 h1
    have m2 : memGroups c2 st.showGroups = 1 := hInv.regOnce c2 h2
    obtain ⟨kg1, hkg1, hc1⟩ := (memGroups_pos_iff c1 st.showGroups).mp (by omega)
    obtain ⟨kg2, hkg2, hc2⟩ := (memGroups_pos_iff c2 st.showGroups).mp (by omega)
    obtain ⟨_, hs1, hk1'⟩ := hInv.membersLink kg1 hkg1 c1 hc1
    obtain ⟨_, hs2, hk2'⟩ := hInv.membersLink kg2 hkg2 c2 hc2
    have hkey1 : kg1.1 = k := Except.ok.inj (hk1'.symm.trans hk1)
    have hkey2 : kg2.1 = k := Except.ok.inj (hk2'.symm.trans hk2)
    have hkk : kg1.1 = kg2.1 := hkey1.trans hkey2.symm
    have heq : kg1 = kg2 := entry_eq_of_keys_nodup hInv.keysNodup hkg1 hkg2 hkk
    rw [hs1, hs2, heq]
  · intro kg hkg cid hcid
    obtain ⟨_, hs, hk⟩ := hInv.membersLink kg hkg cid hcid
    exact ⟨hk, hs⟩
  · intro cid
    by_cases hlt : cid < st.nextId
    · exact Nat.le_of_eq (hInv.regOnce cid hlt)
    · have h0 : memGroups cid st.showGroups = 0 :=
        hInv.unregNone cid (by omega)
      omega

/-- C2 witness: containers 0 and 1, both registered with `showOn:
true`, share the key "boolean:true" and the identical predicate
instance. -/
theorem shared_predicate_instance_invariant_witness :
    Reachable exSt2 ∧ 0 < exSt2.nextId ∧ 1 < exSt2.nextId ∧
    generateKeyForShowOnValue (exSt2.heap 0).showOn = Except.ok "boolean:true" ∧
    generateKeyForShowOnValue (exSt2.heap 1).showOn = Except.ok "boolean:true" ∧
    (exSt2.heap 0).shouldShow = (exSt2.heap 1).shouldShow :=
  ⟨reach_exSt2, by decide, by decide, rfl, rfl,
    (shared_predicate_instance_invariant exSt2 reach_exSt2).1 0 1 "boolean:true"
      (by decide) (by decide) rfl rfl⟩

/-- C3: the canonical keys for boolean `true` ("boolean:true") and
string `"true"` ("string:true") encode kind and value and are
distinct; but on `undefined` the canonicalizer returns no key at all —
`showOn.toString()` raises a TypeError — so the claimed key for
`undefined` does not exist. -/
theorem generateKey_distinguishes_kinds_but_throws_on_undefined :
    generateKeyForShowOnValue (ShowOn.bool true) = Except.ok "boolean:true" ∧
    generateKeyForShowOnValue (ShowOn.str "true") = Except.ok "string:true" ∧
    "boolean:true" ≠ "string:true" ∧
    generateKeyForShowOnValue ShowOn.undef =
      Except.error (JSError.typeError "undefined has no toString") :=
  ⟨rfl, rfl, by decide, rfl⟩

/-- C4: registration is not total: constructing a container whose
`showOn` setting is `undefined` (or `null`) raises a TypeError inside
`generateKeyForShowOnValue`, before `coerceShowOnToPredicate` could
run, in every registry state; the explicit `undefined` branch of
`coerceShowOnToPredicate` is unreachable through registration. -/
theorem registration_throws_on_undefined_showOn (st : St) :
    newContainer ShowOn.undef st =
      Except.error (JSError.typeError "undefined has no toString") ∧
    newContainer ShowOn.null st =
      Except.error (JSError.typeError "null has no toString") :=
  ⟨rfl, rfl⟩

/-- C5: `coerceShowOnToPredicate` maps each condition kind exactly as
specified: a function is returned as the very same instance, a boolean
yields a constant predicate with that value, a string tests a
non-sentinel element against the selector and is false on the
sentinel, undefined yields constant-true, and every other kind (null,
numbers, objects, ...) yields constant-false. -/
theorem coerceShowOnToPredicate_cases (tick : Nat) :
    (∀ src fid f,
      coerceShowOnToPredicate (ShowOn.func src fid f) tick = PredInst.ofFunc fid f) ∧
    (∀ b x, (coerceShowOnToPredicate (ShowOn.bool b) tick).eval x = b) ∧
    (∀ s el, (coerceShowOnToPredicate (ShowOn.str s) tick).eval (some el) = jQueryIs el s) ∧
    (∀ s, (coerceShowOnToPredicate (ShowOn.str s) tick).eval none = false) ∧
    (∀ x, (coerceShowOnToPredicate ShowOn.undef tick).eval x = true) ∧
    (∀ x, (coerceShowOnToPredicate ShowOn.null tick).eval x = false) ∧
    (∀ k sval x, (coerceShowOnToPredicate (ShowOn.other k sval) tick).eval x = false) :=
  ⟨fun _ _ _ => rfl, fun _ _ => rfl, fun _ _ => rfl, fun _ => rfl,
    fun _ => rfl, fun _ => rfl, fun _ _ _ => rfl⟩

/-- C6 counterexample: with one registered container (so N = K = 1)
whose `showOn` is `false`, evaluating an empty elements array performs
exactly 1 = N * (|elements| + 1) predicate evaluations: when every
container has its own group, an evaluate pass does reach
N * (|elements| + 1), so "never N * (|elements| + 1)" fails. -/
theorem evalCount_attains_container_bound :
    exStF.nextId = 1 ∧ exStF.showGroups.length = 1 ∧
    (showContainersForElements (ElementsArg.array []) exStF).evalCount =
      exStF.nextId * (testSequence (ElementsArg.array [])).length :=
  ⟨rfl, rfl, rfl⟩

/-- C6 (amended): one evaluate pass performs at most
K * (|elements| + 1) predicate evaluations (K = number of groups,
|elements| + 1 = length of the test sequence with the sentinel), the
per-group walk short-circuiting at the first success; and whenever
K < N (N = number of registered containers, i.e. some group has more
than one member) the count is strictly below N * (|elements| + 1).
When K = N the two bounds coincide and can be attained. -/
theorem evalCount_bounded_by_groups (arg : ElementsArg) (st : St) :
    (showContainersForElements arg st).evalCount ≤
      st.showGroups.length * (testSequence arg).length ∧
    (st.showGroups.length < st.nextId →
      (showContainersForElements arg st).evalCount <
        st.nextId * (testSequence arg).length) := by
  have hlen : 0 < (testSequence arg).length := by
    cases arg <;> simp [testSequence]
  have hle : (showContainersForElements arg st).evalCount ≤
      st.showGroups.length * (testSequence arg).length :=
    groupsLoop_count_le (testSequence arg) st.showGroups st
  refine ⟨hle, fun hK => ?_⟩
  have hmul : st.showGroups.length * (testSequence arg).length <
      st.nextId * (testSequence arg).length := by
    exact Nat.mul_lt_mul_of_lt_of_le hK (Nat.le_refl _) hlen
  omega

/-- C6 witness: with two containers sharing one group (K = 1 < N = 2),
evaluating an empty array stays strictly below N * (|elements| + 1). -/
theorem evalCount_bounded_by_groups_witness :
    exSt2.showGroups.length < exSt2.nextId ∧
    (showContainersForElements (ElementsArg.array []) exSt2).evalCount <
      exSt2.nextId * (testSequence (ElementsArg.array [])).length :=
  ⟨by decide,
    (evalCount_bounded_by_groups (ElementsArg.array []) exSt2).2 (by decide)⟩

/-- C7 (unregister is modelled from the spec; src/ has none): after
registering containers A (id 0) and B (id 1), both with `showOn:
true`, and unregistering B, evaluating an empty selection still makes
A visible, issues no show/hide call on B, and B is a member of no
group. -/
theorem unregister_removes_member :
    ((showContainersForElements (ElementsArg.array [])
        (unregister 1 exSt2)).st.heap 0).visible = true ∧
    (∀ ev ∈ (showContainersForElements (ElementsArg.array [])
        (unregister 1 exSt2)).trace, ev.1 ≠ 1) ∧
    memGroups 1 (unregister 1 exSt2).showGroups = 0 :=
  ⟨rfl, by decide, rfl⟩

/-- C8: a container starts in the Shown state: the class declaration
defaults are `visible: true` matching `showOn: true`, a successfully
constructed container has `visible = true`, and construction leaves
every other container object untouched — among the module's
operations only `showContainersForElements` changes `visible`
flags. -/
theorem container_starts_shown {showOn : ShowOn} {st : St} {cid : Nat} {st' : St}
    (h : newContainer showOn st = Except.ok (cid, st')) :
    protoDefaults.visible = true ∧ protoDefaults.showOn = ShowOn.bool true ∧
    (st'.heap cid).visible = true ∧
    ∀ i, i ≠ cid → st'.heap i = st.heap i := by
  obtain ⟨hcid, p, st1, hA, hst'⟩ := newContainer_ok h
  subst hst'
  refine ⟨rfl, rfl, ?_, ?_⟩
  · show (if cid = st.nextId then
        { protoDefaults with showOn := showOn, shouldShow := p }
      else st1.heap cid).visible = true
    rw [if_pos hcid]
    rfl
  · intro i hi
    show (if i = st.nextId then
        { protoDefaults with showOn := showOn, shouldShow := p }
      else st1.heap i) = st.heap i
    rw [if_neg (hcid ▸ hi)]
    obtain ⟨key, hK, hcases⟩ := addToShowGroup_ok hA
    rcases hcases with ⟨g, _, _, hst1⟩ | ⟨_, _, hst1⟩ <;>
      · subst hst1
        rfl

/-- C8 witness: the container constructed into the empty registry with
`showOn: true` is visible immediately after construction. -/
theorem container_starts_shown_witness : (exSt1.heap 0).visible = true :=
  (container_starts_shown newContainer_exSt1).2.2.1

/-- C9: `showContainersForElements` mutates its array argument in
place: after a call with an array-like argument the caller's array
holds its previous contents plus one trailing null sentinel, and a
repeated call on the same (already mutated) array contents appends
one more null. -/
theorem evaluate_appends_null_to_callers_array
    (xs : List (Option Elem)) (st : St) :
    (showContainersForElements (ElementsArg.array xs) st).elementsAfter =
      xs ++ [none] ∧
    (showContainersForElements (ElementsArg.array (xs ++ [none]))
        (showContainersForElements (ElementsArg.array xs) st).st).elementsAfter =
      (xs ++ [none]) ++ [none] :=
  ⟨rfl, rfl⟩

/-- C10: within each group, an evaluate pass applies its show/hide
decision to the member containers in reverse order of the members
array (which registration fills in insertion order): the full trace
of show/hide calls is, group by group in hash order, the reversed
member list paired with the group's decision, so the most recently
appended member is called first. -/
theorem evaluate_trace_reverse_insertion_order (arg : ElementsArg) (st : St) :
    (showContainersForElements arg st).trace =
      (st.showGroups.map fun kg =>
        kg.2.containers.reverse.map fun c =>
          (c, if (walkFrom kg.2.shouldShow (testSequence arg) (testSequence arg).length).1
              then "show" else "hide")).flatten :=
  groupsLoop_trace (testSequence arg) st.showGroups st

end AlohaUi
